import Mathlib

/-!
Verification of the Steam-Shortcut-Fixer core (src/src-tauri/src/lib.rs)
against its natural-language specification.

The Rust code is shallowly embedded: the filesystem, environment, registry
and network are modelled by an explicit `World` record threaded through the
stateful operations; paths are opaque strings joined with a separator
(Rust `PathBuf::join`); `fs::rename` follows the Windows directory
semantics the tool targets (it fails when the destination already exists,
and on success moves the source path to the destination path).
-/

namespace SSF

/-- Split a character list at every occurrence of `sep`, keeping empty
segments, mirroring Rust `str::split` on a single-character pattern. -/
def splitOnChar (sep : Char) : List Char → List (List Char)
  | [] => [[]]
  | c :: rest =>
    let r := splitOnChar sep rest
    if c = sep then [] :: r
    else
      match r with
      | a :: as => (c :: a) :: as
      | [] => [[c]]

/-- Collapse every escaped-backslash pair to a single backslash, leftmost
first and non-overlapping, mirroring Rust `str::replace("\\\\", "\\")`. -/
def collapseBS : List Char → List Char
  | '\\' :: '\\' :: rest => '\\' :: collapseBS rest
  | c :: rest => c :: collapseBS rest
  | [] => []

/-- `extract_value` from the source: split the line on double quotes and,
when at least four parts result, return part number 3 with escaped
backslashes collapsed. -/
def extract_value (line : String) : Option String :=
  let parts := splitOnChar '"' line.data
  if parts.length ≥ 4 then some (String.mk (collapseBS (parts.getD 3 [])))
  else none

/-- Number of complete quoted fields in a line: every two quote characters
delimit one field, so it is half the quote count (spec-side notion used by
the KeyValueExtractor claim). -/
def completeQuotedFields (line : String) : Nat :=
  (line.data.countP (fun c => c = '"')) / 2

/-- Rust `str::contains` with a string pattern: some position of the
haystack starts with the pattern. -/
def containsPat (pat : List Char) : List Char → Bool
  | [] => pat.isPrefixOf []
  | c :: rest => pat.isPrefixOf (c :: rest) || containsPat pat rest

/-- `PathBuf::join` with a single relative component: pushing a component
onto an empty path yields the component, pushing an empty component leaves
the path denoting the same location. -/
def pathJoin (p c : String) : String :=
  if p = "" then c else if c = "" then p else p ++ "/" ++ c

/-- Strip one trailing carriage return, as Rust `str::lines` does for
`\r\n` terminators. -/
def dropLastCR (l : List Char) : List Char :=
  if l.getLast? = some '\r' then l.dropLast else l

/-- Rust `str::lines`: split at every newline, the final line ending being
optional (so the empty string has no lines), stripping a `\r` left before
each split point. -/
def rustLines (s : String) : List (List Char) :=
  let parts := splitOnChar '\n' s.data
  let parts := if parts.getLast? = some [] then parts.dropLast else parts
  parts.map dropLastCR

structure Game where
  name : String
  app_id : String
  path : String
  status : String
deriving Repr, DecidableEq

structure ShortcutFix where
  name : String
  game_id : String
  icon_url : String
  location : String
  success : Bool
  error : Option String
deriving Repr, DecidableEq

/-- Outcome of one HTTP GET: a transport error on send, or a response with
a status code and a body-read outcome. -/
inductive HttpOutcome where
  | sendErr (msg : String)
  | resp (status : Nat) (bytes : Except String String)

instance {ε α : Type} [DecidableEq ε] [DecidableEq α] : DecidableEq (Except ε α) := fun a b =>
  match a, b with
  | .ok x, .ok y => if h : x = y then .isTrue (by rw [h]) else .isFalse (by simp [h])
  | .error x, .error y => if h : x = y then .isTrue (by rw [h]) else .isFalse (by simp [h])
  | .ok _, .error _ => .isFalse (by simp)
  | .error _, .ok _ => .isFalse (by simp)

instance : DecidableEq HttpOutcome := fun a b =>
  match a, b with
  | .sendErr x, .sendErr y => if h : x = y then .isTrue (by rw [h]) else .isFalse (by simp [h])
  | .resp s x, .resp t y =>
    if h : s = t ∧ x = y then .isTrue (by rw [h.1, h.2]) else .isFalse (by simp; tauto)
  | .sendErr _, .resp _ _ => .isFalse (by simp)
  | .resp _ _, .sendErr _ => .isFalse (by simp)

/-- The external world: filesystem (existing paths, file paths, readable
file contents, directory listings), environment variables, the registry
value `SOFTWARE\Valve\Steam\SteamPath` when present, the network, and
oracles deciding whether a given rename, write or directory creation
succeeds.  Read errors carry the message `ioMsg` gives for the path. -/
structure World where
  ex : List String
  isFile : List String
  files : List (String × String)
  listing : List (String × List String)
  env : List (String × String)
  registrySteamPath : Option String
  http : String → HttpOutcome
  renameOk : String → String → Bool
  writeOk : String → Bool
  mkdirOk : String → Bool
  ioMsg : String → String

def World.readFile (w : World) (p : String) : Option String := w.files.lookup p

def World.pathExists (w : World) (p : String) : Bool := w.ex.contains p

def World.readDir (w : World) (p : String) : Option (List String) := w.listing.lookup p

def World.isFileAt (w : World) (p : String) : Bool := w.isFile.contains p

def World.envVar (w : World) (k : String) : Option String := w.env.lookup k

/-- `fs::rename` on a directory under the Windows semantics this tool
targets: it fails when the source is absent, the destination is already
present, or the oracle denies it; on success the source path stops
existing and the destination path starts existing. -/
def stagedWorld (w : World) (src dst : String) : World :=
  { w with ex := dst :: w.ex.filter (fun p => p ≠ src) }

def World.rename (w : World) (src dst : String) : Option World :=
  if w.pathExists src && !w.pathExists dst && w.renameOk src dst then
    some (stagedWorld w src dst)
  else none

/-- `fs::write`: on success the target path exists, is a file, and holds
the written bytes. -/
def World.writeFile (w : World) (p content : String) : Option World :=
  if w.writeOk p then
    some { w with
            ex := if w.pathExists p then w.ex else p :: w.ex,
            isFile := if w.isFileAt p then w.isFile else p :: w.isFile,
            files := (p, content) :: w.files.filter (fun kv => kv.1 ≠ p) }
  else none

/-- Body of the descriptor-scanning loop of `get_steam_library_folders`:
for every line containing `"path"`, extract its value; when the value is
non-empty, derive `value/steamapps` and keep it when it exists on disk and
differs from the input root. -/
def collectLibs (w : World) (root : String) : List (List Char) → List String
  | [] => []
  | line :: rest =>
    if containsPat ("\"path\"".data) line then
      match extract_value (String.mk line) with
      | some path =>
        if path ≠ "" then
          let library_path := pathJoin path "steamapps"
          if w.pathExists library_path && library_path ≠ root then
            library_path :: collectLibs w root rest
          else collectLibs w root rest
        else collectLibs w root rest
      | none => collectLibs w root rest
    else collectLibs w root rest

/-- `get_steam_library_folders` from the source: the input root, then the
roots discovered from the `libraryfolders.vdf` descriptor next to it. -/
def get_steam_library_folders (w : World) (steamapps_path : String) : List String :=
  match w.readFile (pathJoin steamapps_path "libraryfolders.vdf") with
  | some content => steamapps_path :: collectLibs w steamapps_path (rustLines content)
  | none => [steamapps_path]

/-- The line scan of `parse_manifest`: an `appid` line overwrites the
identifier, otherwise a `name` line overwrites the name, otherwise an
`installdir` line overwrites the install directory (last occurrence wins).
The accumulator is `(name, app_id, install_dir)`. -/
def manifestFields : List (List Char) → String × String × String → String × String × String
  | [], acc => acc
  | line :: rest, (name, app_id, install_dir) =>
    if containsPat ("\"appid\"".data) line then
      match extract_value (String.mk line) with
      | some v => manifestFields rest (name, v, install_dir)
      | none => manifestFields rest (name, app_id, install_dir)
    else if containsPat ("\"name\"".data) line then
      match extract_value (String.mk line) with
      | some v => manifestFields rest (v, app_id, install_dir)
      | none => manifestFields rest (name, app_id, install_dir)
    else if containsPat ("\"installdir\"".data) line then
      match extract_value (String.mk line) with
      | some v => manifestFields rest (name, app_id, v)
      | none => manifestFields rest (name, app_id, install_dir)
    else manifestFields rest (name, app_id, install_dir)

/-- `parse_manifest` from the source: read the manifest, scan its lines
for the three fields, and accept exactly when `name` and `app_id` are
non-empty and `common_path/install_dir` exists. -/
def parse_manifest (w : World) (manifest_path common_path : String) : Except String Game :=
  match w.readFile manifest_path with
  | none => .error ("Failed to read manifest: " ++ w.ioMsg manifest_path)
  | some content =>
    let f := manifestFields (rustLines content) ("", "", "")
    let game_path := pathJoin common_path f.2.2
    if f.1 ≠ "" && f.2.1 ≠ "" && w.pathExists game_path then
      .ok { name := f.1, app_id := f.2.1, path := f.2.2, status := "ready" }
    else .error "Invalid manifest data"

/-- Filename filter of `scan_games`: starts with `appmanifest_` and ends
with `.acf`. -/
def isManifestName (n : String) : Bool :=
  ("appmanifest_".data).isPrefixOf n.data && (".acf".data).isSuffixOf n.data

/-- Inner loop of `scan_games` over one directory listing, threading the
accumulated catalog and the set of already-seen identifiers. -/
def scanEntries (w : World) (library common : String) :
    List String → List Game → List String → List Game × List String
  | [], games, seen => (games, seen)
  | entry :: rest, games, seen =>
    if isManifestName entry then
      match parse_manifest w (pathJoin library entry) common with
      | .ok game =>
        if seen.contains game.app_id then scanEntries w library common rest games seen
        else scanEntries w library common rest (games ++ [game]) (game.app_id :: seen)
      | .error _ => scanEntries w library common rest games seen
    else scanEntries w library common rest games seen

/-- Outer loop of `scan_games` over the located roots: skip a root whose
`common` subdirectory does not exist or whose listing fails. -/
def scanLibs (w : World) : List String → List Game → List String → List Game × List String
  | [], games, seen => (games, seen)
  | library :: rest, games, seen =>
    if w.pathExists (pathJoin library "common") then
      match w.readDir library with
      | some entries =>
        let gs := scanEntries w library (pathJoin library "common") entries games seen
        scanLibs w rest gs.1 gs.2
      | none => scanLibs w rest games seen
    else scanLibs w rest games seen

/-- `scan_games` from the source: locate all roots, scan each, and return
the deduplicated catalog (always `Ok`). -/
def scan_games (w : World) (steamapps_path : String) : Except String (List Game) :=
  .ok (scanLibs w (get_steam_library_folders w steamapps_path) [] []).1

/-- ASCII decimal digit, the characters matched by the shortcut-id
pattern `\d` on these ASCII inputs. -/
def isDigitCh (c : Char) : Bool := '0' ≤ c && c ≤ '9'

def urlLit : List Char := "URL=steam://rungameid/".data

/-- Leftmost match of `URL=steam://rungameid/(\d+)` in the content: at the
first position where the literal is followed by at least one digit, the
greedy capture is the maximal digit run. -/
def findUrlGameId : List Char → Option String
  | [] => none
  | c :: rest =>
    if urlLit.isPrefixOf (c :: rest) then
      let run := ((c :: rest).drop urlLit.length).takeWhile isDigitCh
      if run ≠ [] then some (String.mk run) else findUrlGameId rest
    else findUrlGameId rest

def icoPat : List Char := ".ico".data

/-- Largest `k` with `1 ≤ k ≤ maxk` such that `pat` occurs at offset `k`
of `s`: the landing point of a greedy one-or-more group followed by a
literal, found by backtracking from the longest candidate. -/
def greedyK (s pat : List Char) (maxk : Nat) : Option Nat :=
  ((List.range (maxk + 1)).filter
      (fun k => decide (1 ≤ k) && pat.isPrefixOf (s.drop k))).getLast?

def iconLitPat : List Char := "IconFile=".data

/-- Match of `(.+\.ico)` at a fixed start: `.` stops at a newline, so the
capture lies inside the current line and, by greediness, ends at the last
`.ico` occurrence reachable there. -/
def matchIconAt (after : List Char) : Option (List Char) :=
  let L := after.takeWhile (fun c => c ≠ '\n')
  match greedyK L icoPat L.length with
  | some k => some (L.take (k + 4))
  | none => none

/-- Leftmost match of `IconFile=(.+\.ico)` in the content. -/
def findIconFile : List Char → Option (List Char)
  | [] => none
  | c :: rest =>
    if iconLitPat.isPrefixOf (c :: rest) then
      match matchIconAt ((c :: rest).drop iconLitPat.length) with
      | some cap => some cap
      | none => findIconFile rest
    else findIconFile rest

/-- Whitespace trimmed by Rust `str::trim` on these ASCII inputs. -/
def isWS (c : Char) : Bool := c = ' ' || c = '\t' || c = '\n' || c = '\r'

def trimChars (l : List Char) : List Char :=
  ((l.dropWhile isWS).reverse.dropWhile isWS).reverse

/-- `Path::file_name` under Windows rules: the last component after
splitting on both separators, none when it is a current- or
parent-directory marker. -/
def fileNameWin (s : String) : Option String :=
  let comps := ((splitOnChar '\\' s.data).flatMap (splitOnChar '/')).filter (fun c => c ≠ [])
  match comps.getLast? with
  | some c => if c = ".".data || c = "..".data then none else some (String.mk c)
  | none => none

/-- `Path::extension` of a file name: the part after the last dot, none
when there is no dot or the only dot is the leading one. -/
def extOf (n : String) : Option String :=
  match splitOnChar '.' n.data with
  | [] => none
  | [_] => none
  | first :: rest =>
    if first = [] && rest.length = 1 then none else some (String.mk (rest.getLastD []))

/-- `Path::file_stem` of a file name: everything before the extension. -/
def fileStemOf (n : String) : String :=
  match extOf n with
  | none => n
  | some e => String.mk (n.data.take (n.data.length - (e.data.length + 1)))

def fileStemWin (p : String) : Option String := (fileNameWin p).map fileStemOf

def asciiLowerCh (c : Char) : Char :=
  if 'A' ≤ c && c ≤ 'Z' then Char.ofNat (c.toNat + 32) else c

/-- Rust `str::eq_ignore_ascii_case`. -/
def eqIgnoreAsciiCase (a b : String) : Bool :=
  (a.data.map asciiLowerCh) == (b.data.map asciiLowerCh)

/-- Lowercase hex digit, the character class `[a-f0-9]`. -/
def isHexLower (c : Char) : Bool := ('a' ≤ c && c ≤ 'f') || ('0' ≤ c && c ≤ '9')

/-- Leftmost match of `([a-f0-9]+)\.ico`: at the first feasible position,
the greedy capture is the longest hex run still followed by `.ico`. -/
def findHexIco : List Char → Option String
  | [] => none
  | c :: rest =>
    let run := (c :: rest).takeWhile isHexLower
    match greedyK (c :: rest) icoPat run.length with
    | some k => some (String.mk ((c :: rest).take k))
    | none => findHexIco rest

/-- The fixed CDN template of `process_shortcut` with the identifier and
icon hash substituted in. -/
def cdnUrl (game_id client_icon : String) : String :=
  "https://cdn.cloudflare.steamstatic.com/steamcommunity/public/images/apps/"
    ++ game_id ++ "/" ++ client_icon ++ ".ico"

/-- The pure extraction pipeline of `process_shortcut`: game id, icon
filename and icon hash, with the error messages of the source. -/
def shortcutMeta (content : String) : Except String (String × String × String) :=
  match findUrlGameId content.data with
  | none => .error "Not a Steam game shortcut"
  | some game_id =>
    match findIconFile content.data with
    | none => .error "No icon path found"
    | some cap =>
      match fileNameWin (String.mk (trimChars cap)) with
      | none => .error "Could not extract icon filename"
      | some icon_filename =>
        match findHexIco icon_filename.data with
        | none => .error "Could not extract icon hash"
        | some client_icon => .ok (game_id, icon_filename, client_icon)

/-- `process_shortcut` from the source.  Besides the per-file outcome it
returns the updated world and the list of network requests issued (the
reqwest client construction, which cannot fail for this fixed
configuration, is not modelled as a failure source). -/
def process_shortcut (w : World) (file_path icons_cache location : String) :
    Except String ShortcutFix × World × List String :=
  match w.readFile file_path with
  | none => (.error ("Failed to read file: " ++ w.ioMsg file_path), w, [])
  | some content =>
    match shortcutMeta content with
    | .error e => (.error e, w, [])
    | .ok (game_id, icon_filename, client_icon) =>
      let icon_url := cdnUrl game_id client_icon
      let cache_icon_path := pathJoin icons_cache icon_filename
      let fix : ShortcutFix :=
        { name := (fileStemWin file_path).getD "Unknown", game_id := game_id,
          icon_url := icon_url, location := location, success := true, error := none }
      if w.pathExists cache_icon_path then (.ok fix, w, [])
      else
        match w.http icon_url with
        | .sendErr e => (.error ("Download failed: " ++ e), w, [icon_url])
        | .resp status bytes =>
          if status < 200 || 300 ≤ status then
            (.error ("HTTP error: " ++ toString status), w, [icon_url])
          else
            match bytes with
            | .error e => (.error ("Failed to read response: " ++ e), w, [icon_url])
            | .ok body =>
              match w.writeFile cache_icon_path body with
              | some w2 => (.ok fix, w2, [icon_url])
              | none =>
                (.error ("Failed to write icon: " ++ w.ioMsg cache_icon_path), w, [icon_url])

/-- `find_steam_install_directory`, Windows configuration: the default
location when it holds `steam.exe`, else the registry value when it does. -/
def find_steam_install_directory (w : World) : Except String String :=
  if w.pathExists (pathJoin "C:\\Program Files (x86)\\Steam" "steam.exe") then
    .ok "C:\\Program Files (x86)\\Steam"
  else
    match w.registrySteamPath with
    | some install_path =>
      if w.pathExists (pathJoin install_path "steam.exe") then .ok install_path
      else .error "Could not find Steam installation directory"
    | none => .error "Could not find Steam installation directory"

/-- `get_shortcut_locations` from the source: Desktop, OneDrive Desktop
and Start Menu, filtered to existing directories. -/
def get_shortcut_locations (w : World) : List String :=
  let locs :=
    match w.envVar "USERPROFILE" with
    | some up =>
      [pathJoin up "Desktop", pathJoin (pathJoin up "OneDrive") "Desktop"] ++
      (match w.envVar "APPDATA" with
       | some ad => [pathJoin ad "Microsoft\\Windows\\Start Menu\\Programs"]
       | none => [])
    | none => []
  locs.filter (fun p => w.pathExists p)

/-- File filter of `quick_fix_shortcuts`: the extension case-insensitively
equals `url`. -/
def urlExt (entry_path : String) : Bool :=
  match fileNameWin entry_path with
  | some n =>
    match extOf n with
    | some e => eqIgnoreAsciiCase e "url"
    | none => false
  | none => false

/-- Inner loop of `quick_fix_shortcuts` over one listing: each examined
`.url` file yields one `ShortcutFix`, failures being recorded with the
filename as display name, empty fields and the captured error.  The third
component traces each examined file as (location name, path, read result
at examination time). -/
def fixEntries (w : World) (icons_cache location location_name : String) :
    List String → List ShortcutFix × World × List (String × String × Option String)
  | [] => ([], w, [])
  | entry :: rest =>
    let path := pathJoin location entry
    if w.isFileAt path && urlExt path then
      let res := process_shortcut w path icons_cache location_name
      let fix :=
        match res.1 with
        | .ok f => f
        | .error e =>
          { name := (fileNameWin path).getD "Unknown", game_id := "", icon_url := "",
            location := location_name, success := false, error := some e }
      let tail := fixEntries res.2.1 icons_cache location location_name rest
      (fix :: tail.1, tail.2.1, (location_name, path, w.readFile path) :: tail.2.2)
    else fixEntries w icons_cache location location_name rest

/-- Outer loop of `quick_fix_shortcuts` over the shortcut locations; a
location whose listing fails contributes nothing. -/
def fixLocations (w : World) (icons_cache : String) :
    List String → List ShortcutFix × World × List (String × String × Option String)
  | [] => ([], w, [])
  | location :: rest =>
    match w.readDir location with
    | some entries =>
      let r := fixEntries w icons_cache location ((fileNameWin location).getD "Unknown") entries
      let tail := fixLocations r.2.1 icons_cache rest
      (r.1 ++ tail.1, tail.2.1, r.2.2 ++ tail.2.2)
    | none => fixLocations w icons_cache rest

/-- `quick_fix_shortcuts` from the source: find the Steam directory,
ensure the icon cache directory exists (fatal when creation fails), then
process every `.url` file of every location. -/
def quick_fix_shortcuts (w : World) :
    Except String (List ShortcutFix) × World × List (String × String × Option String) :=
  match find_steam_install_directory w with
  | .error e => (.error e, w, [])
  | .ok steam_path =>
    let icons_cache := pathJoin (pathJoin steam_path "steam") "games"
    if w.pathExists icons_cache then
      let r := fixLocations w icons_cache (get_shortcut_locations w)
      (.ok r.1, r.2.1, r.2.2)
    else if w.mkdirOk icons_cache then
      let w1 : World := { w with ex := icons_cache :: w.ex }
      let r := fixLocations w1 icons_cache (get_shortcut_locations w1)
      (.ok r.1, r.2.1, r.2.2)
    else
      (.error ("Failed to create icons cache directory: " ++ w.ioMsg icons_cache), w, [])

/-- Fuelled worker for `trimEndAll`; the fuel only bounds the number of
strips and `l.length` is always enough. -/
def trimEndAllAux (sfx : List Char) : Nat → List Char → List Char
  | 0, l => l
  | fuel + 1, l =>
    if sfx ≠ [] && sfx.isSuffixOf l then
      trimEndAllAux sfx fuel (l.take (l.length - sfx.length))
    else l

/-- Rust `str::trim_end_matches`: repeatedly remove the suffix while it is
present. -/
def trimEndAll (sfx l : List Char) : List Char := trimEndAllAux sfx l.length l

def tempSuffix : List Char := "_temp_rename".data

/-- Loop of `rename_game_folder`: first root whose `common` subdirectory
contains the path wins; a failing rename aborts with an error. -/
def stageLoop (w : World) (game_path : String) : List String → Except String String × World
  | [] => (.error "Game folder not found in any library", w)
  | library :: rest =>
    let common := pathJoin library "common"
    let original := pathJoin common game_path
    if w.pathExists original then
      match w.rename original (pathJoin common (game_path ++ "_temp_rename")) with
      | some w2 => (.ok (game_path ++ "_temp_rename"), w2)
      | none => (.error ("Failed to rename folder: " ++ w.ioMsg original), w)
    else stageLoop w game_path rest

/-- `rename_game_folder` from the source. -/
def rename_game_folder (w : World) (steamapps_path game_path : String) :
    Except String String × World :=
  stageLoop w game_path (get_steam_library_folders w steamapps_path)

/-- Loop of `revert_game_folder`: first root containing the staged name
wins; the target is the name with all trailing sentinel suffixes removed. -/
def revertLoop (w : World) (temp_name : String) : List String → Except String Unit × World
  | [] => (.error "Temp folder not found in any library", w)
  | library :: rest =>
    let common := pathJoin library "common"
    let temp := pathJoin common temp_name
    if w.pathExists temp then
      match w.rename temp (pathJoin common (String.mk (trimEndAll tempSuffix temp_name.data))) with
      | some w2 => (.ok (), w2)
      | none => (.error ("Failed to revert folder: " ++ w.ioMsg temp), w)
    else revertLoop w temp_name rest

/-- `revert_game_folder` from the source. -/
def revert_game_folder (w : World) (steamapps_path temp_name : String) :
    Except String Unit × World :=
  revertLoop w temp_name (get_steam_library_folders w steamapps_path)

/-- Inner loop of `cleanup_temp_folders` over one listing.  The trace
records every attempted rename as (common path, entry name, succeeded). -/
def cleanupEntries (w : World) (common : String) :
    List String → List String × World × List (String × String × Bool)
  | [] => ([], w, [])
  | entry :: rest =>
    if tempSuffix.isSuffixOf entry.data then
      let original_name := String.mk (trimEndAll tempSuffix entry.data)
      let src := pathJoin common entry
      let dst := pathJoin common original_name
      match w.rename src dst with
      | some w2 =>
        let tail := cleanupEntries w2 common rest
        (original_name :: tail.1, tail.2.1, (common, entry, true) :: tail.2.2)
      | none =>
        let tail := cleanupEntries w common rest
        (tail.1, tail.2.1, (common, entry, false) :: tail.2.2)
    else cleanupEntries w common rest

/-- Outer loop of `cleanup_temp_folders` over the located roots. -/
def cleanupLibs (w : World) : List String → List String × World × List (String × String × Bool)
  | [] => ([], w, [])
  | library :: rest =>
    match w.readDir (pathJoin library "common") with
    | some entries =>
      let r := cleanupEntries w (pathJoin library "common") entries
      let tail := cleanupLibs r.2.1 rest
      (r.1 ++ tail.1, tail.2.1, r.2.2 ++ tail.2.2)
    | none => cleanupLibs w rest

/-- `cleanup_temp_folders` from the source: a best-effort sweep that never
returns an error. -/
def cleanup_temp_folders (w : World) (steamapps_path : String) :
    Except String (List String) × World × List (String × String × Bool) :=
  let r := cleanupLibs w (get_steam_library_folders w steamapps_path)
  (.ok r.1, r.2.1, r.2.2)

/-! ## Helper lemmas and spec-side notions -/

theorem splitOnChar_ne_nil (sep : Char) (l : List Char) : splitOnChar sep l ≠ [] := by
  cases l with
  | nil => simp [splitOnChar]
  | cons c rest =>
    simp only [splitOnChar]
    by_cases h : c = sep
    · simp [h]
    · simp only [if_neg h]
      cases splitOnChar sep rest <;> simp

/-- Splitting yields one part more than there are separator occurrences. -/
theorem splitOnChar_length (sep : Char) (l : List Char) :
    (splitOnChar sep l).length = l.countP (fun c => decide (c = sep)) + 1 := by
  induction l with
  | nil => simp [splitOnChar]
  | cons c rest ih =>
    simp only [splitOnChar, List.countP_cons]
    by_cases h : c = sep
    · simp [h, ih]
    · obtain ⟨a, as, ha⟩ : ∃ a as, splitOnChar sep rest = a :: as := by
        cases hh : splitOnChar sep rest with
        | nil => exact absurd hh (splitOnChar_ne_nil sep rest)
        | cons a as => exact ⟨a, as, rfl⟩
      simp only [if_neg h, ha]
      have := ih
      rw [ha] at this
      simp only [List.length_cons] at this ⊢
      simp [h, this]

/-- Every other element of a list, starting with the first. -/
def everyOther {α : Type} : List α → List α
  | [] => []
  | [a] => [a]
  | a :: _ :: rest => a :: everyOther rest

/-- The complete quoted fields of a line, in order: the segments lying
between the (2i-1)-th and (2i)-th quote characters (spec-side notion for
the KeyValueExtractor claim). -/
def quotedFields (line : String) : List (List Char) :=
  everyOther (((splitOnChar '"' line.data).dropLast).drop 1)

theorem everyOther_getElem? {α : Type} :
    ∀ (l : List α) (n : Nat), (everyOther l)[n]? = l[2 * n]?
  | [], n => by simp [everyOther]
  | [a], n => by
    cases n with
    | zero => simp [everyOther]
    | succ m =>
      have h2 : (1 : Nat) ≤ 2 * (m + 1) := by omega
      simp [everyOther, List.getElem?_eq_none, h2]
  | a :: b :: rest, n => by
    cases n with
    | zero => simp [everyOther]
    | succ m =>
      have ih := everyOther_getElem? rest m
      have h2 : 2 * (m + 1) = 2 * m + 1 + 1 := by omega
      simp [everyOther, h2, ih]

/-! ## C3: KeyValueExtractor contract -/

/-- C3, counterexample: on the line `"path" "D:` (three quote characters,
so fewer than two complete quoted fields after the key), `extract_value`
still returns a value, so it is not the case that it returns nothing
exactly when the line lacks two quoted fields. -/
theorem extract_value_c3_counterexample :
    completeQuotedFields "\"path\" \"D:" < 2 ∧ extract_value "\"path\" \"D:" ≠ none := by
  decide

/-- C3 (amended): `extract_value` is total and returns nothing exactly
when the line contains fewer than three quote characters (an opening of a
second quoted field suffices, the field may be unterminated); whenever the
line does contain a second complete quoted field, the returned value is
that field with escaped-backslash sequences collapsed. -/
theorem extract_value_c3 (line : String) :
    (extract_value line = none ↔ line.data.countP (fun c => decide (c = '"')) < 3) ∧
    (∀ f, (quotedFields line)[1]? = some f →
      extract_value line = some (String.mk (collapseBS f))) := by
  have hlen := splitOnChar_length '"' line.data
  constructor
  · unfold extract_value
    dsimp only
    split_ifs with h
    · simp only [reduceCtorEq, false_iff, not_lt]
      omega
    · simp only [true_iff]
      omega
  · intro f hf0
    unfold quotedFields at hf0
    rw [everyOther_getElem?] at hf0
    rw [List.getElem?_drop] at hf0
    have hf : ((splitOnChar '"' line.data).dropLast)[3]? = some f := by
      rw [show (3 : Nat) = 1 + 2 * 1 by omega]
      exact hf0
    have hlt : 3 < (splitOnChar '"' line.data).length - 1 := by
      by_contra hc
      rw [List.getElem?_eq_none] at hf
      · exact absurd hf (by simp)
      · simp only [List.length_dropLast]; omega
    have hp3 : (splitOnChar '"' line.data)[3]? = some f := by
      have h5 : 3 < (splitOnChar '"' line.data).dropLast.length := by
        simp only [List.length_dropLast]; omega
      have h6 : 3 < (splitOnChar '"' line.data).length := by omega
      rw [List.getElem?_eq_getElem h5] at hf
      rw [List.getElem?_eq_getElem h6]
      rw [List.getElem_dropLast] at hf
      exact hf
    have h4 : (splitOnChar '"' line.data).length ≥ 4 := by omega
    unfold extract_value
    dsimp only
    rw [if_pos h4]
    have hgd : (splitOnChar '"' line.data).getD 3 [] = f := by
      simp [List.getD_eq_getElem?_getD, hp3]
    rw [hgd]

/-- C3 witness: the amended theorem applied to a well-formed line. -/
theorem extract_value_c3_witness :
    extract_value "\t\"path\"\t\t\"D:\\\\Games\"" = some "D:\\Games" :=
  (extract_value_c3 "\t\"path\"\t\t\"D:\\\\Games\"").2 "D:\\\\Games".data (by decide)

/-! ## C7: LibraryLocator -/

/-- Contribution of one descriptor line to the locator result as claim C7
words it: any `"path"` line whose derived path exists and differs from the
input root contributes, with no condition on the extracted value. -/
def claimLineRaw (w : World) (root : String) (line : List Char) : Option String :=
  if containsPat ("\"path\"".data) line then
    match extract_value (String.mk line) with
    | some path =>
      let lp := pathJoin path "steamapps"
      if w.pathExists lp && lp ≠ root then some lp else none
    | none => none
  else none

/-- Contribution of one descriptor line as amended: additionally the
extracted value must be non-empty. -/
def claimLineAmended (w : World) (root : String) (line : List Char) : Option String :=
  if containsPat ("\"path\"".data) line then
    match extract_value (String.mk line) with
    | some path =>
      if path ≠ "" then
        let lp := pathJoin path "steamapps"
        if w.pathExists lp && lp ≠ root then some lp else none
      else none
    | none => none
  else none

/-- The locator result exactly as claim C7 states it. -/
def libraryFoldersClaim (w : World) (root : String) : List String :=
  root ::
    (match w.readFile (pathJoin root "libraryfolders.vdf") with
     | none => []
     | some content => (rustLines content).filterMap (claimLineRaw w root))

/-- The locator result as amended. -/
def libraryFoldersAmended (w : World) (root : String) : List String :=
  root ::
    (match w.readFile (pathJoin root "libraryfolders.vdf") with
     | none => []
     | some content => (rustLines content).filterMap (claimLineAmended w root))

theorem collectLibs_eq_filterMap (w : World) (root : String) (lines : List (List Char)) :
    collectLibs w root lines = lines.filterMap (claimLineAmended w root) := by
  induction lines with
  | nil => rfl
  | cons line rest ih =>
    simp only [collectLibs, claimLineAmended, List.filterMap_cons]
    repeat' split
    all_goals simp_all [ih]

/-- World for the C7 counterexample: the descriptor has a `"path"` line
with an empty value, and the path `steamapps` that an empty value derives
happens to exist. -/
def wC7 : World :=
  { ex := ["steamapps"], isFile := [], files := [("R/libraryfolders.vdf", "\"path\" \"\"")],
    listing := [], env := [], registrySteamPath := none, http := fun _ => .sendErr "",
    renameOk := fun _ _ => false, writeOk := fun _ => false, mkdirOk := fun _ => false,
    ioMsg := fun _ => "io" }

/-- C7, counterexample: on a descriptor line whose extracted value is
empty, the code skips the derived path even though it exists on disk and
differs from the input root, so the returned list is not the one the claim
describes. -/
theorem get_steam_library_folders_c7_counterexample :
    get_steam_library_folders wC7 "R" = ["R"] ∧
    libraryFoldersClaim wC7 "R" = ["R", "steamapps"] ∧
    get_steam_library_folders wC7 "R" ≠ libraryFoldersClaim wC7 "R" := by
  decide

/-- C7 (amended): the locator always returns the input root first — also
when the descriptor is absent, unreadable or empty — followed, in file
order, by each path derived from a `"path"` line whose extracted value is
non-empty, when that derived path exists on disk and is not identical to
the input root. -/
theorem get_steam_library_folders_c7 (w : World) (root : String) :
    get_steam_library_folders w root = libraryFoldersAmended w root ∧
    (get_steam_library_folders w root).head? = some root := by
  constructor
  · unfold get_steam_library_folders libraryFoldersAmended
    cases w.readFile (pathJoin root "libraryfolders.vdf") with
    | none => rfl
    | some content =>
      simp only [List.cons.injEq, true_and]
      exact collectLibs_eq_filterMap w root (rustLines content)
  · unfold get_steam_library_folders
    cases w.readFile (pathJoin root "libraryfolders.vdf") <;> rfl

/-! ## C4 and C1: GameCatalogBuilder and ManifestParser -/

/-- The game one directory entry contributes: entries matching the
manifest pattern whose parse succeeds. -/
def entryGame (w : World) (library common entry : String) : Option Game :=
  if isManifestName entry then
    match parse_manifest w (pathJoin library entry) common with
    | .ok g => some g
    | .error _ => none
  else none

/-- All successfully parsed games in cross-root scan order, before
deduplication (spec-side notion for the catalog claims). -/
def flatGames (w : World) (libs : List String) : List Game :=
  libs.flatMap (fun library =>
    if w.pathExists (pathJoin library "common") then
      match w.readDir library with
      | some entries => entries.filterMap (entryGame w library (pathJoin library "common"))
      | none => []
    else [])

/-- First-seen-wins deduplication by identifier (spec-side notion). -/
def dedupFirst : List Game → List String → List Game
  | [], _ => []
  | g :: rest, seen =>
    if seen.contains g.app_id then dedupFirst rest seen
    else g :: dedupFirst rest (g.app_id :: seen)

/-- The seen-identifier set after consuming a list of games. -/
def newIds : List Game → List String → List String
  | [], seen => seen
  | g :: rest, seen =>
    if seen.contains g.app_id then newIds rest seen
    else newIds rest (g.app_id :: seen)

theorem dedupFirst_append (l1 l2 : List Game) (seen : List String) :
    dedupFirst (l1 ++ l2) seen = dedupFirst l1 seen ++ dedupFirst l2 (newIds l1 seen) := by
  induction l1 generalizing seen with
  | nil => simp [dedupFirst, newIds]
  | cons g rest ih =>
    simp only [List.cons_append, dedupFirst, newIds]
    by_cases h : g.app_id ∈ seen
    · simp [h, ih]
    · simp [h, ih]

theorem newIds_append (l1 l2 : List Game) (seen : List String) :
    newIds (l1 ++ l2) seen = newIds l2 (newIds l1 seen) := by
  induction l1 generalizing seen with
  | nil => simp [newIds]
  | cons g rest ih =>
    simp only [List.cons_append, newIds]
    by_cases h : g.app_id ∈ seen
    · simp [h, ih]
    · simp [h, ih]

theorem scanEntries_eq (w : World) (lib common : String) (entries : List String)
    (games : List Game) (seen : List String) :
    scanEntries w lib common entries games seen =
      (games ++ dedupFirst (entries.filterMap (entryGame w lib common)) seen,
       newIds (entries.filterMap (entryGame w lib common)) seen) := by
  induction entries generalizing games seen with
  | nil => simp [scanEntries, dedupFirst, newIds]
  | cons entry rest ih =>
    simp only [scanEntries, List.filterMap_cons, entryGame]
    by_cases h1 : isManifestName entry
    · simp only [if_pos h1]
      cases hp : parse_manifest w (pathJoin lib entry) common with
      | ok g =>
        by_cases h2 : g.app_id ∈ seen
        · simp [h2, ih, dedupFirst, newIds]
        · simp [h2, ih, dedupFirst, newIds]
      | error e => simp [ih]
    · simp [h1, ih]

theorem scanLibs_eq (w : World) (libs : List String) (games : List Game) (seen : List String) :
    scanLibs w libs games seen =
      (games ++ dedupFirst (flatGames w libs) seen, newIds (flatGames w libs) seen) := by
  induction libs generalizing games seen with
  | nil => simp [scanLibs, flatGames, dedupFirst, newIds]
  | cons lib rest ih =>
    by_cases h1 : w.pathExists (pathJoin lib "common")
    · cases hd : w.readDir lib with
      | some entries =>
        have hL : scanLibs w (lib :: rest) games seen =
            scanLibs w rest (scanEntries w lib (pathJoin lib "common") entries games seen).1
              (scanEntries w lib (pathJoin lib "common") entries games seen).2 := by
          simp [scanLibs, h1, hd]
        rw [hL, scanEntries_eq, ih]
        have hF : flatGames w (lib :: rest) =
            entries.filterMap (entryGame w lib (pathJoin lib "common")) ++ flatGames w rest := by
          simp [flatGames, h1, hd]
        rw [hF, dedupFirst_append, newIds_append]
        simp [List.append_assoc]
      | none =>
        have hL : scanLibs w (lib :: rest) games seen = scanLibs w rest games seen := by
          simp [scanLibs, h1, hd]
        have hF : flatGames w (lib :: rest) = flatGames w rest := by
          simp [flatGames, h1, hd]
        rw [hL, hF, ih]
    · have hL : scanLibs w (lib :: rest) games seen = scanLibs w rest games seen := by
        simp [scanLibs, h1]
      have hF : flatGames w (lib :: rest) = flatGames w rest := by
        simp [flatGames, h1]
      rw [hL, hF, ih]

theorem scan_games_eq (w : World) (root : String) :
    scan_games w root = .ok (dedupFirst (flatGames w (get_steam_library_folders w root)) []) := by
  unfold scan_games
  rw [scanLibs_eq]
  simp

theorem dedupFirst_not_seen (l : List Game) (seen : List String) :
    ∀ g ∈ dedupFirst l seen, seen.contains g.app_id = false := by
  induction l generalizing seen with
  | nil => simp [dedupFirst]
  | cons g0 rest ih =>
    intro g hg
    simp only [dedupFirst] at hg
    by_cases h : seen.contains g0.app_id
    · rw [if_pos h] at hg
      exact ih seen g hg
    · rw [if_neg h] at hg
      rcases List.mem_cons.mp hg with rfl | hg2
      · simpa using h
      · have := ih (g0.app_id :: seen) g hg2
        simp only [List.contains_cons, Bool.or_eq_false_iff] at this
        exact this.2

theorem dedupFirst_pairwise (l : List Game) (seen : List String) :
    (dedupFirst l seen).Pairwise (fun a b => a.app_id ≠ b.app_id) := by
  induction l generalizing seen with
  | nil => simp [dedupFirst]
  | cons g0 rest ih =>
    simp only [dedupFirst]
    by_cases h : seen.contains g0.app_id
    · rw [if_pos h]
      exact ih seen
    · rw [if_neg h]
      refine List.Pairwise.cons ?_ (ih (g0.app_id :: seen))
      intro b hb hne
      have := dedupFirst_not_seen rest (g0.app_id :: seen) b hb
      simp only [List.contains_cons, Bool.or_eq_false_iff, beq_eq_false_iff_ne] at this
      exact this.1 hne.symm

theorem dedupFirst_subset (l : List Game) (seen : List String) :
    ∀ g ∈ dedupFirst l seen, g ∈ l := by
  induction l generalizing seen with
  | nil => simp [dedupFirst]
  | cons g0 rest ih =>
    intro g hg
    simp only [dedupFirst] at hg
    by_cases h : seen.contains g0.app_id
    · rw [if_pos h] at hg
      exact List.mem_cons_of_mem g0 (ih seen g hg)
    · rw [if_neg h] at hg
      rcases List.mem_cons.mp hg with rfl | hg2
      · exact List.mem_cons_self g rest
      · exact List.mem_cons_of_mem g0 (ih (g0.app_id :: seen) g hg2)

theorem dedupFirst_first (l : List Game) (seen : List String) :
    ∀ g ∈ dedupFirst l seen, l.find? (fun x => x.app_id == g.app_id) = some g := by
  induction l generalizing seen with
  | nil => simp [dedupFirst]
  | cons g0 rest ih =>
    intro g hg
    simp only [dedupFirst] at hg
    by_cases h : seen.contains g0.app_id
    · rw [if_pos h] at hg
      have hrest := ih seen g hg
      have hgs := dedupFirst_not_seen rest seen g hg
      have hne : (g0.app_id == g.app_id) = false := by
        by_contra hc
        have heq : g0.app_id = g.app_id := by
          cases hb : (g0.app_id == g.app_id) with
          | false => exact absurd hb hc
          | true => exact beq_iff_eq.mp hb
        rw [heq] at h
        rw [h] at hgs
        exact Bool.noConfusion hgs
      rw [List.find?_cons, hne]
      exact hrest
    · rw [if_neg h] at hg
      rcases List.mem_cons.mp hg with rfl | hg2
      · rw [List.find?_cons]
        simp
      · have hgs := dedupFirst_not_seen rest (g0.app_id :: seen) g hg2
        simp only [List.contains_cons, Bool.or_eq_false_iff] at hgs
        have hne : (g0.app_id == g.app_id) = false := by
          have := hgs.1
          simp only [beq_eq_false_iff_ne] at this ⊢
          exact fun hc => this hc.symm
        rw [List.find?_cons, hne]
        exact ih (g0.app_id :: seen) g hg2

theorem flatGames_mem (w : World) (libs : List String) (g : Game) (hg : g ∈ flatGames w libs) :
    ∃ lib entry, lib ∈ libs ∧ isManifestName entry = true ∧
      parse_manifest w (pathJoin lib entry) (pathJoin lib "common") = .ok g := by
  unfold flatGames at hg
  rw [List.mem_flatMap] at hg
  obtain ⟨lib, hlib, hmem⟩ := hg
  split at hmem
  · split at hmem
    · rw [List.mem_filterMap] at hmem
      obtain ⟨entry, hent, hEg⟩ := hmem
      unfold entryGame at hEg
      split at hEg
      · split at hEg
        · exact ⟨lib, entry, hlib, by assumption, by simp_all⟩
        · exact Option.noConfusion hEg
      · exact Option.noConfusion hEg
    · simp at hmem
  · simp at hmem

/-- C4: the catalog returned by `scan_games` is exactly the first-seen-wins
deduplication of the successfully parsed games in cross-root scan order: no
two records share an identifier, and each kept record is the first parsed
record carrying its identifier. -/
theorem scan_games_c4 (w : World) (root : String) (games : List Game)
    (h : scan_games w root = .ok games) :
    games = dedupFirst (flatGames w (get_steam_library_folders w root)) [] ∧
    games.Pairwise (fun a b => a.app_id ≠ b.app_id) ∧
    ∀ g ∈ games, (flatGames w (get_steam_library_folders w root)).find?
        (fun x => x.app_id == g.app_id) = some g := by
  have he := scan_games_eq w root
  rw [h] at he
  have hg : games = dedupFirst (flatGames w (get_steam_library_folders w root)) [] := by
    injection he
  refine ⟨hg, ?_, ?_⟩
  · rw [hg]
    exact dedupFirst_pairwise _ _
  · intro g hgm
    rw [hg] at hgm
    exact dedupFirst_first _ _ g hgm

/-- World for the C4 witness: two roots, each holding a manifest with the
same identifier `10`. -/
def wC4 : World :=
  { ex := ["S/steamapps", "R/common", "S/steamapps/common", "R/common/GameA",
           "S/steamapps/common/GameB"],
    isFile := [],
    files := [("R/libraryfolders.vdf", "\"path\" \"S\""),
              ("R/appmanifest_10.acf", "\"appid\" \"10\"\n\"name\" \"A\"\n\"installdir\" \"GameA\""),
              ("S/steamapps/appmanifest_10b.acf",
                "\"appid\" \"10\"\n\"name\" \"B\"\n\"installdir\" \"GameB\"")],
    listing := [("R", ["appmanifest_10.acf"]), ("S/steamapps", ["appmanifest_10b.acf"])],
    env := [], registrySteamPath := none, http := fun _ => .sendErr "",
    renameOk := fun _ _ => false, writeOk := fun _ => false, mkdirOk := fun _ => false,
    ioMsg := fun _ => "io" }

/-- C4 witness: on a world where the same identifier occurs on two roots,
the catalog the theorem describes keeps only the earlier record. -/
theorem scan_games_c4_witness :
    [({ name := "A", app_id := "10", path := "GameA", status := "ready" } : Game)] =
      dedupFirst (flatGames wC4 (get_steam_library_folders wC4 "R")) [] :=
  (scan_games_c4 wC4 "R"
    [{ name := "A", app_id := "10", path := "GameA", status := "ready" }] (by decide)).1

/-- World for the C1 counterexample: a readable manifest carrying `appid`
and `name` but no `installdir`, next to an existing `common` directory. -/
def wC1 : World :=
  { ex := ["C"], isFile := [], files := [("m", "\"appid\" \"10\"\n\"name\" \"G\"")],
    listing := [], env := [], registrySteamPath := none, http := fun _ => .sendErr "",
    renameOk := fun _ _ => false, writeOk := fun _ => false, mkdirOk := fun _ => false,
    ioMsg := fun _ => "io" }

/-- C1, counterexample: the extracted `installdir` field is empty, yet the
record is accepted (joining an empty component leaves the existing
`common` path), so acceptance does not require all three fields to be
non-empty. -/
theorem parse_manifest_c1_counterexample :
    (manifestFields (rustLines "\"appid\" \"10\"\n\"name\" \"G\"") ("", "", "")).2.2 = "" ∧
    parse_manifest wC1 "m" "C" =
      .ok { name := "G", app_id := "10", path := "", status := "ready" } := by
  decide

/-- C1 (amended): for every readable manifest, the parse either accepts
with exactly the extracted record (status `ready`) or fails with
`InvalidManifest`; it accepts exactly when the extracted `name` and
`appid` are non-empty and `common/installdir` exists (no separate
non-emptiness requirement on `installdir`); and every catalog record comes
from an accepting parse of some discovered manifest. -/
theorem parse_manifest_c1 (w : World) (mp cp content : String)
    (hread : w.readFile mp = some content) :
    (parse_manifest w mp cp =
        .ok { name := (manifestFields (rustLines content) ("", "", "")).1,
              app_id := (manifestFields (rustLines content) ("", "", "")).2.1,
              path := (manifestFields (rustLines content) ("", "", "")).2.2,
              status := "ready" } ∨
      parse_manifest w mp cp = .error "Invalid manifest data") ∧
    ((∃ g, parse_manifest w mp cp = .ok g) ↔
      ((manifestFields (rustLines content) ("", "", "")).1 ≠ "" ∧
       (manifestFields (rustLines content) ("", "", "")).2.1 ≠ "" ∧
       w.pathExists (pathJoin cp (manifestFields (rustLines content) ("", "", "")).2.2) = true)) ∧
    (∀ root games g, scan_games w root = .ok games → g ∈ games →
      ∃ lib entry, lib ∈ get_steam_library_folders w root ∧ isManifestName entry = true ∧
        parse_manifest w (pathJoin lib entry) (pathJoin lib "common") = .ok g) := by
  refine ⟨?_, ?_, ?_⟩
  · unfold parse_manifest
    rw [hread]
    dsimp only
    split_ifs with hc
    · left; rfl
    · right; rfl
  · unfold parse_manifest
    rw [hread]
    dsimp only
    split_ifs with hc
    · simp only [Bool.and_eq_true, decide_eq_true_eq] at hc
      constructor
      · intro _
        exact ⟨hc.1.1, hc.1.2, hc.2⟩
      · intro _
        exact ⟨_, rfl⟩
    · constructor
      · rintro ⟨g, hg⟩
        exact absurd hg (by simp)
      · intro hcond
        exfalso
        apply hc
        simp only [Bool.and_eq_true, decide_eq_true_eq]
        exact ⟨⟨hcond.1, hcond.2.1⟩, hcond.2.2⟩
  · intro root games g hscan hmem
    have he := scan_games_eq w root
    rw [hscan] at he
    have hgeq : games = dedupFirst (flatGames w (get_steam_library_folders w root)) [] := by
      injection he
    rw [hgeq] at hmem
    exact flatGames_mem w _ g (dedupFirst_subset _ _ g hmem)

/-- C1 witness: a fully valid manifest is accepted. -/
theorem parse_manifest_c1_witness :
    ∃ g, parse_manifest wC4 "R/appmanifest_10.acf" "R/common" = .ok g :=
  (parse_manifest_c1 wC4 "R/appmanifest_10.acf" "R/common"
      "\"appid\" \"10\"\n\"name\" \"A\"\n\"installdir\" \"GameA\"" (by decide)).2.1.mpr
    ⟨by decide, by decide, by decide⟩

/-! ## Path, suffix and rename lemmas for the FolderStager claims -/

theorem strExt (a b : String) (h : a.data = b.data) : a = b := by
  cases a
  cases b
  exact congrArg String.mk (by simpa using h)

theorem pathJoin_inj_left (p a b : String) (h : pathJoin p a = pathJoin p b) : a = b := by
  unfold pathJoin at h
  by_cases hp : p = ""
  · simpa [hp] using h
  · by_cases ha : a = ""
    · by_cases hb : b = ""
      · rw [ha, hb]
      · rw [if_neg hp, if_pos ha, if_neg hp, if_neg hb] at h
        have := congrArg (fun s => s.data.length) h
        simp at this
    · by_cases hb : b = ""
      · rw [if_neg hp, if_neg ha, if_neg hp, if_pos hb] at h
        have := congrArg (fun s => s.data.length) h
        simp at this
      · rw [if_neg hp, if_neg ha, if_neg hp, if_neg hb] at h
        have hd := congrArg String.data h
        simp only [show ∀ x y : String, (x ++ y).data = x.data ++ y.data from fun _ _ => rfl,
          List.append_assoc] at hd
        exact strExt a b (List.append_cancel_left (List.append_cancel_left hd))

theorem pathJoin_inj_right (a b c : String) (hc : c ≠ "") (h : pathJoin a c = pathJoin b c) :
    a = b := by
  unfold pathJoin at h
  by_cases ha : a = ""
  · by_cases hb : b = ""
    · rw [ha, hb]
    · rw [if_pos ha, if_neg hb, if_neg hc] at h
      have := congrArg (fun s => s.data.length) h
      simp at this
      omega
  · by_cases hb : b = ""
    · rw [if_neg ha, if_neg hc, if_pos hb] at h
      have := congrArg (fun s => s.data.length) h
      simp at this
      omega
    · rw [if_neg ha, if_neg hc, if_neg hb, if_neg hc] at h
      have hd := congrArg String.data h
      simp only [show ∀ x y : String, (x ++ y).data = x.data ++ y.data from fun _ _ => rfl] at hd
      exact strExt a b (List.append_cancel_right (List.append_cancel_right hd))

theorem ne_append_tempSuffix (s : String) : s ≠ s ++ "_temp_rename" := by
  intro h
  have := congrArg (fun x => x.data.length) h
  simp only [show ∀ x y : String, (x ++ y).data = x.data ++ y.data from fun _ _ => rfl,
    List.length_append] at this
  simp at this

theorem isSuffixOf_append_self (g : List Char) : tempSuffix.isSuffixOf (g ++ tempSuffix) = true :=
  List.isSuffixOf_iff_suffix.mpr (List.suffix_append g tempSuffix)

theorem trimEndAllAux_no_suffix (sfx l : List Char) (fuel : Nat)
    (h : sfx.isSuffixOf l = false) : trimEndAllAux sfx fuel l = l := by
  cases fuel with
  | zero => rfl
  | succ f =>
    unfold trimEndAllAux
    rw [h]
    simp

theorem trimEndAll_append (g : List Char) (h : tempSuffix.isSuffixOf g = false) :
    trimEndAll tempSuffix (g ++ tempSuffix) = g := by
  unfold trimEndAll
  have hlen : (g ++ tempSuffix).length = g.length + 11 + 1 := by
    simp [List.length_append, tempSuffix]
  rw [hlen]
  unfold trimEndAllAux
  rw [isSuffixOf_append_self]
  have hc : (decide ¬tempSuffix = [] && true) = true := by decide
  rw [hc]
  simp only [if_true]
  have htake : (g ++ tempSuffix).take ((g ++ tempSuffix).length - tempSuffix.length) = g := by
    have h1 : (g ++ tempSuffix).length - tempSuffix.length = g.length := by
      simp [List.length_append]
    rw [h1, List.take_left]
  rw [htake]
  exact trimEndAllAux_no_suffix _ _ _ h

theorem rename_some_of (w : World) (src dst : String)
    (h1 : w.pathExists src = true) (h2 : w.pathExists dst = false)
    (h3 : w.renameOk src dst = true) :
    w.rename src dst = some (stagedWorld w src dst) := by
  unfold World.rename
  rw [h1, h2, h3]
  simp

theorem rename_some (w : World) (src dst : String) (w2 : World)
    (h : w.rename src dst = some w2) :
    w.pathExists src = true ∧ w.pathExists dst = false ∧ w.renameOk src dst = true ∧
      w2 = stagedWorld w src dst := by
  unfold World.rename at h
  split_ifs at h with hc
  · simp only [Bool.and_eq_true, Bool.not_eq_true'] at hc
    refine ⟨hc.1.1, hc.1.2, hc.2, ?_⟩
    injection h with h2
    exact h2.symm

theorem pathExists_after_rename (w : World) (src dst x : String) :
    ((stagedWorld w src dst).pathExists x = true) ↔
      (x = dst ∨ (w.pathExists x = true ∧ x ≠ src)) := by
  unfold stagedWorld World.pathExists
  simp [List.mem_filter]

/-! ## C8: cleanup sweep -/

theorem pathJoin_suffix (p e : String) (h : tempSuffix.isSuffixOf e.data = true) :
    tempSuffix.isSuffixOf (pathJoin p e).data = true := by
  rw [List.isSuffixOf_iff_suffix] at h ⊢
  have hne : e ≠ "" := by
    intro he
    rw [he] at h
    have := List.suffix_nil.mp h
    simp [tempSuffix] at this
  unfold pathJoin
  by_cases h1 : p = ""
  · rw [if_pos h1]
    exact h
  · rw [if_neg h1, if_neg hne]
    exact h.trans (List.suffix_append _ _)

theorem cleanupEntries_spec (w : World) (common : String) (entries : List String) :
    ((cleanupEntries w common entries).2.2.map (fun t => (t.1, t.2.1)) =
      (entries.filter (fun e => tempSuffix.isSuffixOf e.data)).map (fun e => (common, e))) ∧
    ((cleanupEntries w common entries).1 =
      (cleanupEntries w common entries).2.2.filterMap
        (fun t => if t.2.2 = true then some (String.mk (trimEndAll tempSuffix t.2.1.data))
                  else none)) := by
  induction entries generalizing w with
  | nil => simp [cleanupEntries]
  | cons entry rest ih =>
    by_cases hs : tempSuffix.isSuffixOf entry.data
    · cases hr : w.rename (pathJoin common entry)
          (pathJoin common (String.mk (trimEndAll tempSuffix entry.data))) with
      | some w2 =>
        have hi := ih w2
        simp [cleanupEntries, hs, hr, hi.1, hi.2]
      | none =>
        have hi := ih w
        simp [cleanupEntries, hs, hr, hi.1, hi.2]
    · have hi := ih w
      simp only [Bool.not_eq_true] at hs
      simp [cleanupEntries, hs, hi.1, hi.2]

theorem cleanupEntries_listing (w : World) (common : String) (entries : List String) :
    (cleanupEntries w common entries).2.1.listing = w.listing := by
  induction entries generalizing w with
  | nil => simp [cleanupEntries]
  | cons entry rest ih =>
    by_cases hs : tempSuffix.isSuffixOf entry.data
    · cases hr : w.rename (pathJoin common entry)
          (pathJoin common (String.mk (trimEndAll tempSuffix entry.data))) with
      | some w2 =>
        have h4 := (rename_some w _ _ w2 hr).2.2.2
        have : w2.listing = w.listing := by rw [h4]; rfl
        simp [cleanupEntries, hs, hr, ih w2, this]
      | none => simp [cleanupEntries, hs, hr, ih w]
    · simp only [Bool.not_eq_true] at hs
      simp [cleanupEntries, hs, ih w]

theorem cleanupEntries_untouched (w : World) (common : String) (entries : List String)
    (p : String) (hp : p ∈ w.ex) (hns : tempSuffix.isSuffixOf p.data = false) :
    p ∈ (cleanupEntries w common entries).2.1.ex := by
  induction entries generalizing w with
  | nil => simpa [cleanupEntries] using hp
  | cons entry rest ih =>
    by_cases hs : tempSuffix.isSuffixOf entry.data
    · cases hr : w.rename (pathJoin common entry)
          (pathJoin common (String.mk (trimEndAll tempSuffix entry.data))) with
      | some w2 =>
        have hmem : p ∈ w2.ex := by
          have h4 := (rename_some w _ _ w2 hr).2.2.2
          rw [h4]
          unfold stagedWorld
          have hpsrc : p ≠ pathJoin common entry := by
            intro hEq
            have hsfx := pathJoin_suffix common entry hs
            rw [← hEq] at hsfx
            rw [hsfx] at hns
            exact Bool.noConfusion hns
          simp only [List.mem_cons, List.mem_filter]
          right
          exact ⟨hp, by simpa using hpsrc⟩
        simpa [cleanupEntries, hs, hr] using ih w2 hmem
      | none => simpa [cleanupEntries, hs, hr] using ih w hp
    · simp only [Bool.not_eq_true] at hs
      simpa [cleanupEntries, hs] using ih w hp

theorem cleanupLibs_spec (w : World) (libs : List String) :
    ((cleanupLibs w libs).2.2.map (fun t => (t.1, t.2.1)) =
      libs.flatMap (fun lib =>
        match w.readDir (pathJoin lib "common") with
        | some es => (es.filter (fun e => tempSuffix.isSuffixOf e.data)).map
            (fun e => (pathJoin lib "common", e))
        | none => [])) ∧
    ((cleanupLibs w libs).1 =
      (cleanupLibs w libs).2.2.filterMap
        (fun t => if t.2.2 = true then some (String.mk (trimEndAll tempSuffix t.2.1.data))
                  else none)) := by
  induction libs generalizing w with
  | nil => simp [cleanupLibs]
  | cons lib rest ih =>
    cases hd : w.readDir (pathJoin lib "common") with
    | some es =>
      have hlist := cleanupEntries_listing w (pathJoin lib "common") es
      have hrd : ∀ x, (cleanupEntries w (pathJoin lib "common") es).2.1.readDir x =
          w.readDir x := by
        intro x
        unfold World.readDir
        rw [hlist]
      have ihr := ih (cleanupEntries w (pathJoin lib "common") es).2.1
      have hes := cleanupEntries_spec w (pathJoin lib "common") es
      constructor
      · simp only [cleanupLibs, hd]
        simp only [List.flatMap_cons, hd, List.map_append, ihr.1, hes.1]
        simp only [hrd]
      · simp only [cleanupLibs, hd]
        simp only [List.filterMap_append, ihr.2, hes.2]
    | none =>
      have := ih w
      simp [cleanupLibs, hd, this.1, this.2]

theorem cleanupLibs_untouched (w : World) (libs : List String)
    (p : String) (hp : p ∈ w.ex) (hns : tempSuffix.isSuffixOf p.data = false) :
    p ∈ (cleanupLibs w libs).2.1.ex := by
  induction libs generalizing w with
  | nil => simpa [cleanupLibs] using hp
  | cons lib rest ih =>
    cases hd : w.readDir (pathJoin lib "common") with
    | some es =>
      have h1 := cleanupEntries_untouched w (pathJoin lib "common") es p hp hns
      simpa [cleanupLibs, hd] using ih _ h1
    | none => simpa [cleanupLibs, hd] using ih w hp

/-- C8: the cleanup sweep never errors; the renames it attempts are
exactly the entries with the sentinel suffix, directly under each located
root's `common` directory, in order; the returned list is exactly the
unsuffixed names of those entries whose rename succeeded; and every
existing path without the sentinel suffix still exists afterwards. -/
theorem cleanup_temp_folders_c8 (w : World) (root : String) :
    ((cleanup_temp_folders w root).1 = .ok ((cleanup_temp_folders w root).2.2.filterMap
        (fun t => if t.2.2 = true then some (String.mk (trimEndAll tempSuffix t.2.1.data))
                  else none))) ∧
    ((cleanup_temp_folders w root).2.2.map (fun t => (t.1, t.2.1)) =
      (get_steam_library_folders w root).flatMap (fun lib =>
        match w.readDir (pathJoin lib "common") with
        | some es => (es.filter (fun e => tempSuffix.isSuffixOf e.data)).map
            (fun e => (pathJoin lib "common", e))
        | none => [])) ∧
    (∀ p ∈ w.ex, tempSuffix.isSuffixOf p.data = false →
      p ∈ (cleanup_temp_folders w root).2.1.ex) := by
  have hs := cleanupLibs_spec w (get_steam_library_folders w root)
  refine ⟨?_, ?_, ?_⟩
  · unfold cleanup_temp_folders
    exact congrArg Except.ok hs.2
  · exact hs.1
  · intro p hp hns
    exact cleanupLibs_untouched w _ p hp hns

/-- World for the C8 witness: one root, one staged directory and one
plain directory under `common`. -/
def wC8 : World :=
  { ex := ["R/common", "R/common/g_temp_rename", "R/common/h"], isFile := [], files := [],
    listing := [("R/common", ["g_temp_rename", "h"])], env := [], registrySteamPath := none,
    http := fun _ => .sendErr "", renameOk := fun _ _ => true, writeOk := fun _ => false,
    mkdirOk := fun _ => false, ioMsg := fun _ => "io" }

/-- C8 witness: the unsuffixed directory survives the sweep. -/
theorem cleanup_temp_folders_c8_witness :
    "R/common/h" ∈ (cleanup_temp_folders wC8 "R").2.1.ex :=
  (cleanup_temp_folders_c8 wC8 "R").2.2 "R/common/h" (by decide) (by decide)

/-! ## C2: stage-then-revert round trip -/

theorem pathExists_true_iff (w : World) (x : String) :
    w.pathExists x = true ↔ x ∈ w.ex := by
  unfold World.pathExists
  simp

theorem pathExists_false_iff (w : World) (x : String) :
    w.pathExists x = false ↔ x ∉ w.ex := by
  unfold World.pathExists
  simp

theorem append_tempSuffix_ne_empty (s : String) : s ++ "_temp_rename" ≠ "" := by
  intro h
  have := congrArg (fun x => x.data.length) h
  simp only [show ∀ x y : String, (x ++ y).data = x.data ++ y.data from fun _ _ => rfl,
    List.length_append] at this
  simp at this

theorem stageLoop_skip (w : World) (gp : String) (pre rest : List String)
    (hpre : ∀ q ∈ pre, w.pathExists (pathJoin (pathJoin q "common") gp) = false) :
    stageLoop w gp (pre ++ rest) = stageLoop w gp rest := by
  induction pre with
  | nil => rfl
  | cons q pr ih =>
    have hq := hpre q (by simp)
    simp only [List.cons_append, stageLoop, hq, Bool.false_eq_true, if_false]
    exact ih (fun x hx => hpre x (by simp [hx]))

theorem revertLoop_skip (w : World) (tn : String) (pre rest : List String)
    (hpre : ∀ q ∈ pre, w.pathExists (pathJoin (pathJoin q "common") tn) = false) :
    revertLoop w tn (pre ++ rest) = revertLoop w tn rest := by
  induction pre with
  | nil => rfl
  | cons q pr ih =>
    have hq := hpre q (by simp)
    simp only [List.cons_append, revertLoop, hq, Bool.false_eq_true, if_false]
    exact ih (fun x hx => hpre x (by simp [hx]))

/-- World for the C2 counterexample: a single root whose `common` holds a
directory whose own name already ends in the sentinel suffix. -/
def wC2 : World :=
  { ex := ["R/common/g_temp_rename"], isFile := [], files := [], listing := [], env := [],
    registrySteamPath := none, http := fun _ => .sendErr "", renameOk := fun _ _ => true,
    writeOk := fun _ => false, mkdirOk := fun _ => false, ioMsg := fun _ => "io" }

/-- C2, counterexample: staging the install path `g_temp_rename` (present
under exactly one root) succeeds and returns `g_temp_rename_temp_rename`;
reverting that name also succeeds, but `trim_end_matches` strips the
suffix repeatedly, so the directory is renamed to `g`, and the original
path no longer exists: the round trip does not restore the original. -/
theorem stage_revert_c2_counterexample :
    (rename_game_folder wC2 "R" "g_temp_rename").1 = .ok "g_temp_rename_temp_rename" ∧
    (revert_game_folder (rename_game_folder wC2 "R" "g_temp_rename").2 "R"
        "g_temp_rename_temp_rename").1 = .ok () ∧
    ((revert_game_folder (rename_game_folder wC2 "R" "g_temp_rename").2 "R"
        "g_temp_rename_temp_rename").2.pathExists "R/common/g_temp_rename" = false) := by
  decide

theorem stageLoop_hit (w w2 : World) (gp p : String) (rest : List String)
    (hex : w.pathExists (pathJoin (pathJoin p "common") gp) = true)
    (hrn : w.rename (pathJoin (pathJoin p "common") gp)
        (pathJoin (pathJoin p "common") (gp ++ "_temp_rename")) = some w2) :
    stageLoop w gp (p :: rest) = (.ok (gp ++ "_temp_rename"), w2) := by
  simp [stageLoop, hex, hrn]

theorem revertLoop_hit (w w2 : World) (tn p : String) (rest : List String)
    (hex : w.pathExists (pathJoin (pathJoin p "common") tn) = true)
    (hrn : w.rename (pathJoin (pathJoin p "common") tn)
        (pathJoin (pathJoin p "common") (String.mk (trimEndAll tempSuffix tn.data)))
        = some w2) :
    revertLoop w tn (p :: rest) = (.ok (), w2) := by
  simp [revertLoop, hex, hrn]

/-- C2 (amended): when the relative install path does not itself end in
the sentinel suffix, its staged name exists under no located root, the
root list is unchanged by the staging rename, and both renames are
permitted, then staging followed by reverting the returned staged name
restores the original directory: the original path exists again and the
staged path no longer exists. -/
theorem stage_revert_c2 (w : World) (root gp p : String) (pre post : List String)
    (hlibs : get_steam_library_folders w root = pre ++ p :: post)
    (hpre : ∀ q ∈ pre, w.pathExists (pathJoin (pathJoin q "common") gp) = false)
    (hin : w.pathExists (pathJoin (pathJoin p "common") gp) = true)
    (hstaged : ∀ q ∈ pre ++ p :: post,
      w.pathExists (pathJoin (pathJoin q "common") (gp ++ "_temp_rename")) = false)
    (hsfx : tempSuffix.isSuffixOf gp.data = false)
    (hrn1 : w.renameOk (pathJoin (pathJoin p "common") gp)
        (pathJoin (pathJoin p "common") (gp ++ "_temp_rename")) = true)
    (hrn2 : w.renameOk (pathJoin (pathJoin p "common") (gp ++ "_temp_rename"))
        (pathJoin (pathJoin p "common") gp) = true)
    (hstable : get_steam_library_folders (rename_game_folder w root gp).2 root
        = pre ++ p :: post) :
    (rename_game_folder w root gp).1 = .ok (gp ++ "_temp_rename") ∧
    (revert_game_folder (rename_game_folder w root gp).2 root (gp ++ "_temp_rename")).1
        = .ok () ∧
    ((revert_game_folder (rename_game_folder w root gp).2 root
        (gp ++ "_temp_rename")).2.pathExists (pathJoin (pathJoin p "common") gp) = true) ∧
    ((revert_game_folder (rename_game_folder w root gp).2 root
        (gp ++ "_temp_rename")).2.pathExists
        (pathJoin (pathJoin p "common") (gp ++ "_temp_rename")) = false) := by
  have htempP := hstaged p (by simp)
  have hrw := rename_some_of w (pathJoin (pathJoin p "common") gp)
      (pathJoin (pathJoin p "common") (gp ++ "_temp_rename")) hin htempP hrn1
  have hstage : rename_game_folder w root gp =
      (.ok (gp ++ "_temp_rename"),
       stagedWorld w (pathJoin (pathJoin p "common") gp)
         (pathJoin (pathJoin p "common") (gp ++ "_temp_rename"))) := by
    unfold rename_game_folder
    rw [hlibs, stageLoop_skip w gp pre (p :: post) hpre]
    exact stageLoop_hit w _ gp p post hin hrw
  rw [hstage] at hstable
  have horigne : pathJoin (pathJoin p "common") gp ≠
      pathJoin (pathJoin p "common") (gp ++ "_temp_rename") := by
    intro hEq
    exact ne_append_tempSuffix gp (pathJoin_inj_left (pathJoin p "common") _ _ hEq)
  have hskip : ∀ q ∈ pre,
      ((stagedWorld w (pathJoin (pathJoin p "common") gp)
          (pathJoin (pathJoin p "common") (gp ++ "_temp_rename"))).pathExists
        (pathJoin (pathJoin q "common") (gp ++ "_temp_rename")) = false) := by
    intro q hq
    rw [← Bool.not_eq_true, pathExists_after_rename]
    rintro (hEq | ⟨hmem, _⟩)
    · have hq1 : pathJoin q "common" = pathJoin p "common" :=
        pathJoin_inj_right _ _ _ (append_tempSuffix_ne_empty gp) hEq
      have hq2 : q = p := pathJoin_inj_right _ _ _ (by decide) hq1
      have hq3 := hpre q hq
      rw [hq2, hin] at hq3
      exact Bool.noConfusion hq3
    · have hq4 := hstaged q (by simp [hq])
      rw [hq4] at hmem
      exact Bool.noConfusion hmem
  have hWtemp : ((stagedWorld w (pathJoin (pathJoin p "common") gp)
      (pathJoin (pathJoin p "common") (gp ++ "_temp_rename"))).pathExists
        (pathJoin (pathJoin p "common") (gp ++ "_temp_rename")) = true) :=
    (pathExists_after_rename w _ _ _).mpr (Or.inl rfl)
  have hWorig : ((stagedWorld w (pathJoin (pathJoin p "common") gp)
      (pathJoin (pathJoin p "common") (gp ++ "_temp_rename"))).pathExists
        (pathJoin (pathJoin p "common") gp) = false) := by
    rw [← Bool.not_eq_true, pathExists_after_rename]
    rintro (hEq | ⟨_, hne⟩)
    · exact horigne hEq
    · exact hne rfl
  have htrim : String.mk (trimEndAll tempSuffix (gp ++ "_temp_rename").data) = gp := by
    have hdata : (gp ++ "_temp_rename").data = gp.data ++ tempSuffix := rfl
    rw [hdata, trimEndAll_append gp.data hsfx]
  have hrw2 := rename_some_of
      (stagedWorld w (pathJoin (pathJoin p "common") gp)
        (pathJoin (pathJoin p "common") (gp ++ "_temp_rename")))
      (pathJoin (pathJoin p "common") (gp ++ "_temp_rename"))
      (pathJoin (pathJoin p "common") gp) hWtemp hWorig hrn2
  have hrev : revert_game_folder (rename_game_folder w root gp).2 root (gp ++ "_temp_rename") =
      (.ok (),
       stagedWorld
         (stagedWorld w (pathJoin (pathJoin p "common") gp)
           (pathJoin (pathJoin p "common") (gp ++ "_temp_rename")))
         (pathJoin (pathJoin p "common") (gp ++ "_temp_rename"))
         (pathJoin (pathJoin p "common") gp)) := by
    rw [hstage]
    unfold revert_game_folder
    rw [hstable, revertLoop_skip _ (gp ++ "_temp_rename") pre (p :: post) hskip]
    refine revertLoop_hit _ _ (gp ++ "_temp_rename") p post hWtemp ?_
    rw [htrim]
    exact hrw2
  refine ⟨by rw [hstage], by rw [hrev], ?_, ?_⟩
  · rw [hrev]
    exact (pathExists_after_rename _ _ _ _).mpr (Or.inl rfl)
  · rw [hrev, ← Bool.not_eq_true, pathExists_after_rename]
    rintro (hEq | ⟨_, hne⟩)
    · exact horigne hEq.symm
    · exact hne rfl

/-- World for the C2 witness: one root, the game directory `g` under its
`common`, all renames permitted. -/
def wC2w : World :=
  { ex := ["R/common/g"], isFile := [], files := [], listing := [], env := [],
    registrySteamPath := none, http := fun _ => .sendErr "", renameOk := fun _ _ => true,
    writeOk := fun _ => false, mkdirOk := fun _ => false, ioMsg := fun _ => "io" }

/-- C2 witness: the amended round trip restores `R/common/g`. -/
theorem stage_revert_c2_witness :
    ((revert_game_folder (rename_game_folder wC2w "R" "g").2 "R"
        "g_temp_rename").2.pathExists "R/common/g" = true) :=
  (stage_revert_c2 wC2w "R" "g" "R" [] [] (by decide) (by decide) (by decide) (by decide)
    (by decide) (by decide) (by decide) (by decide)).2.2.1

/-! ## C5 and C9: ShortcutRepairEngine cache idempotence and CDN URL -/

/-- C5: for a shortcut whose derived icon filename already names a file in
the cache directory, `process_shortcut` issues no network request, leaves
the world (hence the cached file) unchanged, and succeeds with the same
resolved URL; on a cold cache with a successful fetch it succeeds with the
very same URL, issuing exactly one request for it. -/
theorem process_shortcut_c5 (w : World) (fp cache loc content gid fn hash : String)
    (hread : w.readFile fp = some content)
    (hmeta : shortcutMeta content = .ok (gid, fn, hash))
    (hcache : w.pathExists (pathJoin cache fn) = true) :
    process_shortcut w fp cache loc =
      (.ok { name := (fileStemWin fp).getD "Unknown", game_id := gid,
             icon_url := cdnUrl gid hash, location := loc, success := true, error := none },
       w, []) ∧
    (∀ (w2 : World) (status : Nat) (body : String),
      w2.readFile fp = some content →
      w2.pathExists (pathJoin cache fn) = false →
      w2.http (cdnUrl gid hash) = .resp status (.ok body) →
      200 ≤ status → status < 300 →
      w2.writeOk (pathJoin cache fn) = true →
      ∃ w3, process_shortcut w2 fp cache loc =
        (.ok { name := (fileStemWin fp).getD "Unknown", game_id := gid,
               icon_url := cdnUrl gid hash, location := loc, success := true, error := none },
         w3, [cdnUrl gid hash])) := by
  constructor
  · unfold process_shortcut
    simp only [hread]
    simp only [hmeta]
    rw [hcache]
    simp
  · intro w2 status body hread2 hmiss hhttp hs1 hs2 hwr
    unfold process_shortcut
    simp only [hread2]
    simp only [hmeta]
    rw [hmiss]
    simp only [Bool.false_eq_true, if_false]
    simp only [hhttp]
    have hst : (decide (status < 200) || decide (300 ≤ status)) = false := by
      simp only [Bool.or_eq_false_iff, decide_eq_false_iff_not, not_lt, not_le]
      omega
    rw [hst]
    simp only [Bool.false_eq_true, if_false]
    cases hwf : w2.writeFile (pathJoin cache fn) body with
    | some w3 => exact ⟨w3, by simp only [hwf]⟩
    | none =>
      exfalso
      unfold World.writeFile at hwf
      rw [hwr] at hwf
      simp at hwf

/-- World for the C5 witness: the cache already holds the derived icon
file, and the network would fail if consulted. -/
def wC5 : World :=
  { ex := ["cache/deadbeef01.ico"], isFile := [],
    files := [("f", "URL=steam://rungameid/440\nIconFile=C:\\icons\\deadbeef01.ico")],
    listing := [], env := [], registrySteamPath := none, http := fun _ => .sendErr "",
    renameOk := fun _ _ => false, writeOk := fun _ => false, mkdirOk := fun _ => false,
    ioMsg := fun _ => "io" }

/-- C5 witness: warm-cache run with no request, unchanged world, success. -/
theorem process_shortcut_c5_witness :
    process_shortcut wC5 "f" "cache" "Desktop" =
      (.ok { name := "f", game_id := "440", icon_url := cdnUrl "440" "deadbeef01",
             location := "Desktop", success := true, error := none }, wC5, []) :=
  (process_shortcut_c5 wC5 "f" "cache" "Desktop"
    "URL=steam://rungameid/440\nIconFile=C:\\icons\\deadbeef01.ico" "440" "deadbeef01.ico"
    "deadbeef01" (by decide) (by decide) (by decide)).1

/-- Whenever `process_shortcut` succeeds, the produced record is exactly
the success record built from the extracted metadata. -/
theorem process_shortcut_ok_eq (w : World) (fp cache loc : String) (fix : ShortcutFix)
    (h : (process_shortcut w fp cache loc).1 = .ok fix) :
    ∃ content gid fn hash, w.readFile fp = some content ∧
      shortcutMeta content = .ok (gid, fn, hash) ∧
      fix = { name := (fileStemWin fp).getD "Unknown", game_id := gid,
              icon_url := cdnUrl gid hash, location := loc, success := true,
              error := none } := by
  unfold process_shortcut at h
  cases hread : w.readFile fp with
  | none =>
    simp only [hread] at h
    exact absurd h (by simp)
  | some content =>
    simp only [hread] at h
    cases hmeta : shortcutMeta content with
    | error e =>
      simp only [hmeta] at h
      exact absurd h (by simp)
    | ok t =>
      obtain ⟨gid, fn, hash⟩ := t
      simp only [hmeta] at h
      refine ⟨content, gid, fn, hash, rfl, hmeta, ?_⟩
      repeat' split at h
      all_goals simp_all

/-- C9: whenever `process_shortcut` succeeds, the resolved icon URL is the
fixed CDN template with the extracted identifier and the extracted
lowercase-hex hash token substituted in; on the example shortcut content
with id 440 and icon `deadbeef01.ico` the resolved URL is exactly the one
the claim names. -/
theorem process_shortcut_c9 :
    (∀ (w : World) (fp cache loc : String) (fix : ShortcutFix),
      (process_shortcut w fp cache loc).1 = .ok fix →
      ∃ content gid fn hash, w.readFile fp = some content ∧
        shortcutMeta content = .ok (gid, fn, hash) ∧
        fix.game_id = gid ∧ fix.icon_url = cdnUrl gid hash) ∧
    shortcutMeta "URL=steam://rungameid/440\nIconFile=C:\\icons\\deadbeef01.ico" =
      .ok ("440", "deadbeef01.ico", "deadbeef01") ∧
    cdnUrl "440" "deadbeef01" =
      "https://cdn.cloudflare.steamstatic.com/steamcommunity/public/images/apps/440/deadbeef01.ico"
    := by
  refine ⟨?_, by decide, by decide⟩
  intro w fp cache loc fix h
  obtain ⟨content, gid, fn, hash, h1, h2, h3⟩ := process_shortcut_ok_eq w fp cache loc fix h
  exact ⟨content, gid, fn, hash, h1, h2, by rw [h3], by rw [h3]⟩

/-- World for the C9 witness (warm cache: no network needed). -/
def wC9 : World :=
  { ex := ["cache/deadbeef01.ico"], isFile := [],
    files := [("f", "URL=steam://rungameid/440\nIconFile=C:\\icons\\deadbeef01.ico")],
    listing := [], env := [], registrySteamPath := none, http := fun _ => .sendErr "",
    renameOk := fun _ _ => false, writeOk := fun _ => false, mkdirOk := fun _ => false,
    ioMsg := fun _ => "io" }

/-- C9 witness: the general URL statement applied to a concrete run. -/
theorem process_shortcut_c9_witness :
    ∃ content gid fn hash, wC9.readFile "f" = some content ∧
      shortcutMeta content = .ok (gid, fn, hash) ∧
      ({ name := "f", game_id := "440", icon_url := cdnUrl "440" "deadbeef01",
         location := "Desktop", success := true, error := none } : ShortcutFix).game_id = gid ∧
      ({ name := "f", game_id := "440", icon_url := cdnUrl "440" "deadbeef01",
         location := "Desktop", success := true, error := none } : ShortcutFix).icon_url
        = cdnUrl gid hash :=
  process_shortcut_c9.1 wC9 "f" "cache" "Desktop"
    { name := "f", game_id := "440", icon_url := cdnUrl "440" "deadbeef01",
      location := "Desktop", success := true, error := none } (by decide)

/-! ## C6 and C10: quick_fix_shortcuts -/

theorem findUrlGameId_ne (l : List Char) (s : String) (h : findUrlGameId l = some s) :
    s ≠ "" := by
  induction l with
  | nil => simp [findUrlGameId] at h
  | cons c rest ih =>
    unfold findUrlGameId at h
    split_ifs at h with h1
    · have h' : (if List.takeWhile isDigitCh (List.drop urlLit.length (c :: rest)) ≠ [] then
          some (String.mk (List.takeWhile isDigitCh (List.drop urlLit.length (c :: rest))))
          else findUrlGameId rest) = some s := h
      split_ifs at h' with h2
      · injection h' with h3
        intro hs
        apply h2
        rw [← h3] at hs
        have := congrArg String.data hs
        simpa using this
      · exact ih h'
    · exact ih h

theorem shortcutMeta_ok_gid (content : String) (gid fn hash : String)
    (h : shortcutMeta content = .ok (gid, fn, hash)) :
    findUrlGameId content.data = some gid := by
  unfold shortcutMeta at h
  cases hf : findUrlGameId content.data with
  | none =>
    rw [hf] at h
    exact absurd h (by simp)
  | some g =>
    rw [hf] at h
    repeat' split at h
    all_goals simp_all

theorem cdnUrl_ne_empty (g h : String) : cdnUrl g h ≠ "" := by
  intro hEq
  have hd := congrArg (fun s => s.data.length) hEq
  simp only [cdnUrl, show ∀ x y : String, (x ++ y).data = x.data ++ y.data from fun _ _ => rfl,
    List.length_append] at hd
  have h1 : 1 ≤
      ("https://cdn.cloudflare.steamstatic.com/steamcommunity/public/images/apps/".data).length :=
    by decide
  simp only [List.length_cons, List.length_nil] at hd
  omega

/-- The per-entry loop: one result per examined file (fix list and trace
have equal length), every trace entry carries the location name, and an
examined file whose content lacks the rungameid line yields exactly the
failed record in the corresponding position. -/
theorem fixEntries_spec (icons_cache location location_name : String) :
    ∀ (entries : List String) (w : World),
    ((fixEntries w icons_cache location location_name entries).1.length =
      (fixEntries w icons_cache location location_name entries).2.2.length) ∧
    (∀ (i : Nat) (ln p : String) (oc : Option String),
      (fixEntries w icons_cache location location_name entries).2.2[i]? =
        some (ln, p, oc) → ln = location_name) ∧
    (∀ (i : Nat) (ln p content : String),
      (fixEntries w icons_cache location location_name entries).2.2[i]? =
          some (ln, p, some content) →
      findUrlGameId content.data = none →
      (fixEntries w icons_cache location location_name entries).1[i]? =
        some { name := (fileNameWin p).getD "Unknown", game_id := "", icon_url := "",
               location := location_name, success := false,
               error := some "Not a Steam game shortcut" })
  | [], w => by simp [fixEntries]
  | entry :: rest, w => by
    by_cases hf : (w.isFileAt (pathJoin location entry) && urlExt (pathJoin location entry))
        = true
    · have ih := fixEntries_spec icons_cache location location_name rest
        (process_shortcut w (pathJoin location entry) icons_cache location_name).2.1
      simp only [fixEntries, hf, if_true]
      refine ⟨by simp [ih.1], ?_, ?_⟩
      · intro i ln p oc htr
        cases i with
        | zero =>
          simp only [List.getElem?_cons_zero, Option.some.injEq] at htr
          have := congrArg Prod.fst htr
          simpa using this.symm
        | succ n =>
          simp only [List.getElem?_cons_succ] at htr
          exact ih.2.1 n ln p oc htr
      · intro i ln p content htr hnf
        cases i with
        | zero =>
          simp only [List.getElem?_cons_zero, Option.some.injEq] at htr
          have hp : pathJoin location entry = p := by
            have := congrArg (fun t => t.2.1) htr
            simpa using this
          have hoc : w.readFile (pathJoin location entry) = some content := by
            have := congrArg (fun t => t.2.2) htr
            simpa using this
          have hproc : (process_shortcut w (pathJoin location entry) icons_cache
              location_name).1 = .error "Not a Steam game shortcut" := by
            unfold process_shortcut
            simp only [hoc]
            have hm : shortcutMeta content = .error "Not a Steam game shortcut" := by
              unfold shortcutMeta
              rw [hnf]
            simp only [hm]
          simp only [List.getElem?_cons_zero, Option.some.injEq]
          rw [← hp]
          simp only [hproc]
        | succ n =>
          simp only [List.getElem?_cons_succ] at htr ⊢
          exact ih.2.2 n ln p content htr hnf
    · rw [show fixEntries w icons_cache location location_name (entry :: rest) =
          fixEntries w icons_cache location location_name rest from by
        simp [fixEntries, hf]]
      exact fixEntries_spec icons_cache location location_name rest w

/-- The per-location loop enjoys the same one-result-per-examined-file and
failure-shape properties, with each failed record carrying its location
name. -/
theorem fixLocations_spec (icons_cache : String) :
    ∀ (locs : List String) (w : World),
    ((fixLocations w icons_cache locs).1.length =
      (fixLocations w icons_cache locs).2.2.length) ∧
    (∀ (i : Nat) (ln p content : String),
      (fixLocations w icons_cache locs).2.2[i]? = some (ln, p, some content) →
      findUrlGameId content.data = none →
      (fixLocations w icons_cache locs).1[i]? =
        some { name := (fileNameWin p).getD "Unknown", game_id := "", icon_url := "",
               location := ln, success := false,
               error := some "Not a Steam game shortcut" })
  | [], w => by simp [fixLocations]
  | location :: rest, w => by
    cases hd : w.readDir location with
    | none =>
      rw [show fixLocations w icons_cache (location :: rest) =
          fixLocations w icons_cache rest from by simp [fixLocations, hd]]
      exact fixLocations_spec icons_cache rest w
    | some entries =>
      have hE := fixEntries_spec icons_cache location ((fileNameWin location).getD "Unknown")
        entries w
      have ih := fixLocations_spec icons_cache rest
        (fixEntries w icons_cache location ((fileNameWin location).getD "Unknown")
          entries).2.1
      simp only [fixLocations, hd]
      constructor
      · simp [hE.1, ih.1]
      · intro i ln p content htr hnf
        by_cases hi : i < (fixEntries w icons_cache location
            ((fileNameWin location).getD "Unknown") entries).2.2.length
        · rw [List.getElem?_append, if_pos hi] at htr
          have hifix : i < (fixEntries w icons_cache location
              ((fileNameWin location).getD "Unknown") entries).1.length := by
            rw [hE.1]
            exact hi
          rw [List.getElem?_append, if_pos hifix]
          have hln := hE.2.1 i ln p (some content) htr
          rw [hE.2.2 i ln p content htr hnf, hln]
        · rw [List.getElem?_append, if_neg hi] at htr
          have hifix : ¬ i < (fixEntries w icons_cache location
              ((fileNameWin location).getD "Unknown") entries).1.length := by
            rw [hE.1]
            exact hi
          rw [List.getElem?_append, if_neg hifix]
          rw [hE.1]
          exact ih.2 _ ln p content htr hnf

/-- A successful `quick_fix_shortcuts` run is a `fixLocations` run from
some starting world (the input world, with the icon-cache directory added
when it had to be created). -/
theorem quick_fix_ok (w : World) (fixes : List ShortcutFix)
    (h : (quick_fix_shortcuts w).1 = .ok fixes) :
    ∃ (w0 : World) (ic : String),
      fixes = (fixLocations w0 ic (get_shortcut_locations w0)).1 ∧
      (quick_fix_shortcuts w).2.2 = (fixLocations w0 ic (get_shortcut_locations w0)).2.2 := by
  unfold quick_fix_shortcuts at h ⊢
  cases hs : find_steam_install_directory w with
  | error e =>
    simp only [hs] at h
    exact absurd h (by simp)
  | ok steam_path =>
    simp only [hs] at h ⊢
    by_cases hex : w.pathExists (pathJoin (pathJoin steam_path "steam") "games") = true
    · simp only [hex, if_true] at h ⊢
      refine ⟨w, pathJoin (pathJoin steam_path "steam") "games", ?_, rfl⟩
      injection h with h2
      exact h2.symm
    · have hex2 : w.pathExists (pathJoin (pathJoin steam_path "steam") "games") = false :=
        Bool.not_eq_true _ |>.mp hex
      simp only [hex2, Bool.false_eq_true, if_false] at h ⊢
      by_cases hmk : w.mkdirOk (pathJoin (pathJoin steam_path "steam") "games") = true
      · simp only [hmk, if_true] at h ⊢
        refine ⟨{ w with ex := pathJoin (pathJoin steam_path "steam") "games" :: w.ex },
          pathJoin (pathJoin steam_path "steam") "games", ?_, rfl⟩
        injection h with h2
        exact h2.symm
      · have hmk2 : w.mkdirOk (pathJoin (pathJoin steam_path "steam") "games") = false :=
          Bool.not_eq_true _ |>.mp hmk
        simp only [hmk2, Bool.false_eq_true, if_false] at h
        exact absurd h (by simp)

/-- C6: a successful `quick_fix_shortcuts` run produces exactly one result
per examined `.url` file (fix list and examined-file trace have the same
length, position by position), and for every examined file whose content
lacks a `URL=steam://rungameid/(digits)` line the corresponding result is
the failed record: filename as display name, empty identifier and URL, the
location name, `succeeded = false` and the non-empty error message. -/
theorem quick_fix_c6 (w : World) (fixes : List ShortcutFix)
    (h : (quick_fix_shortcuts w).1 = .ok fixes) :
    fixes.length = (quick_fix_shortcuts w).2.2.length ∧
    (∀ (i : Nat) (ln p content : String),
      (quick_fix_shortcuts w).2.2[i]? = some (ln, p, some content) →
      findUrlGameId content.data = none →
      fixes[i]? =
        some { name := (fileNameWin p).getD "Unknown", game_id := "", icon_url := "",
               location := ln, success := false,
               error := some "Not a Steam game shortcut" }) := by
  obtain ⟨w0, ic, hf, ht⟩ := quick_fix_ok w fixes h
  have hs := fixLocations_spec ic (get_shortcut_locations w0) w0
  rw [hf, ht]
  exact ⟨hs.1, hs.2⟩

/-- World for the C6 witness: Steam found at the default location, a warm
cache directory, and one Desktop shortcut whose content lacks the
rungameid line. -/
def wC6 : World :=
  { ex := ["C:\\Program Files (x86)\\Steam/steam.exe",
           "C:\\Program Files (x86)\\Steam/steam/games", "U/Desktop"],
    isFile := ["U/Desktop/a.url"],
    files := [("U/Desktop/a.url", "no steam url here")],
    listing := [("U/Desktop", ["a.url"])],
    env := [("USERPROFILE", "U")], registrySteamPath := none,
    http := fun _ => .sendErr "", renameOk := fun _ _ => false, writeOk := fun _ => false,
    mkdirOk := fun _ => false, ioMsg := fun _ => "io" }

/-- C6 witness: the concrete run records the failed result at the examined
file's position. -/
theorem quick_fix_c6_witness :
    ([({ name := "a.url", game_id := "", icon_url := "", location := "Desktop",
         success := false, error := some "Not a Steam game shortcut" } : ShortcutFix)])[0]? =
      some { name := (fileNameWin "U/Desktop/a.url").getD "Unknown", game_id := "",
             icon_url := "", location := "Desktop", success := false,
             error := some "Not a Steam game shortcut" } :=
  (quick_fix_c6 wC6
      [{ name := "a.url", game_id := "", icon_url := "", location := "Desktop",
         success := false, error := some "Not a Steam game shortcut" }] (by decide)).2
    0 "Desktop" "U/Desktop/a.url" "no steam url here" (by decide) (by decide)

/-- Per-entry invariant for C10: every produced record has success exactly
when the error is absent, non-empty identifier and URL on success, and
empty identifier and URL on failure. -/
theorem fixEntries_inv (icons_cache location location_name : String) :
    ∀ (entries : List String) (w : World),
    ∀ fix ∈ (fixEntries w icons_cache location location_name entries).1,
      (fix.success = true ↔ fix.error = none) ∧
      (fix.success = true → fix.game_id ≠ "" ∧ fix.icon_url ≠ "") ∧
      (fix.success = false → fix.game_id = "" ∧ fix.icon_url = "")
  | [], w => by simp [fixEntries]
  | entry :: rest, w => by
    by_cases hf : (w.isFileAt (pathJoin location entry) && urlExt (pathJoin location entry))
        = true
    · intro fix hfix
      simp only [fixEntries, hf, if_true] at hfix
      rw [List.mem_cons] at hfix
      rcases hfix with rfl | hmem
      · cases hp : (process_shortcut w (pathJoin location entry) icons_cache
            location_name).1 with
        | ok f =>
          obtain ⟨content, gid, fn, hash, h1, h2, h3⟩ :=
            process_shortcut_ok_eq w (pathJoin location entry) icons_cache location_name f hp
          simp only [hp]
          rw [h3]
          refine ⟨by simp, fun _ => ⟨?_, ?_⟩, by simp⟩
          · have hg := shortcutMeta_ok_gid content gid fn hash h2
            simpa using findUrlGameId_ne content.data gid hg
          · simpa using cdnUrl_ne_empty gid hash
        | error e =>
          simp only [hp]
          refine ⟨by simp, by simp, by simp⟩
      · exact fixEntries_inv icons_cache location location_name rest _ fix hmem
    · rw [show fixEntries w icons_cache location location_name (entry :: rest) =
          fixEntries w icons_cache location location_name rest from by
        simp [fixEntries, hf]]
      exact fixEntries_inv icons_cache location location_name rest w

/-- Per-location invariant for C10. -/
theorem fixLocations_inv (icons_cache : String) :
    ∀ (locs : List String) (w : World),
    ∀ fix ∈ (fixLocations w icons_cache locs).1,
      (fix.success = true ↔ fix.error = none) ∧
      (fix.success = true → fix.game_id ≠ "" ∧ fix.icon_url ≠ "") ∧
      (fix.success = false → fix.game_id = "" ∧ fix.icon_url = "")
  | [], w => by simp [fixLocations]
  | location :: rest, w => by
    cases hd : w.readDir location with
    | none =>
      rw [show fixLocations w icons_cache (location :: rest) =
          fixLocations w icons_cache rest from by simp [fixLocations, hd]]
      exact fixLocations_inv icons_cache rest w
    | some entries =>
      intro fix hfix
      simp only [fixLocations, hd] at hfix
      rw [List.mem_append] at hfix
      rcases hfix with hmem | hmem
      · exact fixEntries_inv icons_cache location ((fileNameWin location).getD "Unknown")
          entries w fix hmem
      · exact fixLocations_inv icons_cache rest _ fix hmem

/-- C10: every record in a successful `quick_fix_shortcuts` result
satisfies the invariant: success holds exactly when the error is `none`;
on success the identifier and icon URL are non-empty; on failure both are
empty strings. -/
theorem quick_fix_c10 (w : World) (fixes : List ShortcutFix)
    (h : (quick_fix_shortcuts w).1 = .ok fixes) :
    ∀ fix ∈ fixes,
      (fix.success = true ↔ fix.error = none) ∧
      (fix.success = true → fix.game_id ≠ "" ∧ fix.icon_url ≠ "") ∧
      (fix.success = false → fix.game_id = "" ∧ fix.icon_url = "") := by
  obtain ⟨w0, ic, hf, _⟩ := quick_fix_ok w fixes h
  rw [hf]
  exact fixLocations_inv ic (get_shortcut_locations w0) w0

/-- World for the C10 witness: same shape as the C6 world. -/
def wC10 : World :=
  { ex := ["C:\\Program Files (x86)\\Steam/steam.exe",
           "C:\\Program Files (x86)\\Steam/steam/games", "U/Desktop"],
    isFile := ["U/Desktop/a.url"],
    files := [("U/Desktop/a.url", "no steam url here")],
    listing := [("U/Desktop", ["a.url"])],
    env := [("USERPROFILE", "U")], registrySteamPath := none,
    http := fun _ => .sendErr "", renameOk := fun _ _ => false, writeOk := fun _ => false,
    mkdirOk := fun _ => false, ioMsg := fun _ => "io" }

/-- C10 witness: the invariant holds for the concrete failed record. -/
theorem quick_fix_c10_witness :
    (({ name := "a.url", game_id := "", icon_url := "", location := "Desktop",
        success := false, error := some "Not a Steam game shortcut" } : ShortcutFix).success
        = true ↔
      ({ name := "a.url", game_id := "", icon_url := "", location := "Desktop",
         success := false,
         error := some "Not a Steam game shortcut" } : ShortcutFix).error = none) ∧
    (({ name := "a.url", game_id := "", icon_url := "", location := "Desktop",
        success := false, error := some "Not a Steam game shortcut" } : ShortcutFix).success
        = true →
      ({ name := "a.url", game_id := "", icon_url := "", location := "Desktop",
         success := false,
         error := some "Not a Steam game shortcut" } : ShortcutFix).game_id ≠ "" ∧
      ({ name := "a.url", game_id := "", icon_url := "", location := "Desktop",
         success := false,
         error := some "Not a Steam game shortcut" } : ShortcutFix).icon_url ≠ "") ∧
    (({ name := "a.url", game_id := "", icon_url := "", location := "Desktop",
        success := false, error := some "Not a Steam game shortcut" } : ShortcutFix).success
        = false →
      ({ name := "a.url", game_id := "", icon_url := "", location := "Desktop",
         success := false,
         error := some "Not a Steam game shortcut" } : ShortcutFix).game_id = "" ∧
      ({ name := "a.url", game_id := "", icon_url := "", location := "Desktop",
         success := false,
         error := some "Not a Steam game shortcut" } : ShortcutFix).icon_url = "") :=
  quick_fix_c10 wC10
    [{ name := "a.url", game_id := "", icon_url := "", location := "Desktop",
       success := false, error := some "Not a Steam game shortcut" }] (by decide)
    { name := "a.url", game_id := "", icon_url := "", location := "Desktop",
      success := false, error := some "Not a Steam game shortcut" } (by decide)

end SSF
